import Mathlib

/-!
Verification of the grobber content-resolution core (src/grobber) against
its natural-language specification.

The Python source is shallowly embedded: coroutines become values
together with an explicit completion order (one task completes per
`asyncio.wait` round), memoised attributes become explicit slots,
exceptions become `Except` values or explicit outcome constructors, and
`dict`s become association lists.
-/

namespace Grobber

/-! ## The race selector `get_first` (src/grobber/models.py, lines 39-53) -/

/-- Outcome of one run of the race selector.  The Python coroutine only
returns the winning value; the embedding additionally records the events
of the loop: `examined` lists the completed results whose predicate was
evaluated (line 44, in completion order), and `cancelled` lists the
computations still pending at the moment of return, i.e. exactly those
receiving `coro.cancel()` at lines 48-49. -/
structure RaceResult (T : Type) where
  result : Option T
  examined : List T
  cancelled : List T
deriving Repr, DecidableEq

/-- Shallow embedding of `get_first`.  The pending computations are given
by their results in completion order; each iteration of the `while coros`
loop awaits the next completion (`asyncio.wait` with `FIRST_COMPLETED`),
evaluates the predicate on it, and either cancels the remaining pending
computations and returns the value, or drops it and keeps waiting on the
rest.  An exhausted list is the `while` condition turning false:
`return None`. -/
def get_first {T : Type} (coros : List T) (predicate : T → Bool) : RaceResult T :=
  match coros with
  | [] => ⟨none, [], []⟩
  | result :: rest =>
    if predicate result then ⟨some result, [result], rest⟩
    else
      let r := get_first rest predicate
      ⟨r.result, result :: r.examined, r.cancelled⟩

theorem get_first_result_none_iff {T : Type} (coros : List T) (p : T → Bool) :
    (get_first coros p).result = none ↔ ∀ x ∈ coros, p x = false := by
  induction coros with
  | nil => simp [get_first]
  | cons a rest ih =>
    by_cases h : p a = true
    · simp [get_first, h]
    · simp only [Bool.not_eq_true] at h
      simp [get_first, h, ih]

theorem get_first_result_some {T : Type} {coros : List T} {p : T → Bool} {v : T}
    (h : (get_first coros p).result = some v) : v ∈ coros ∧ p v = true := by
  induction coros with
  | nil => simp [get_first] at h
  | cons a rest ih =>
    by_cases ha : p a = true
    · simp only [get_first, ha, if_pos] at h
      cases h
      exact ⟨List.mem_cons_self _ _, ha⟩
    · simp only [Bool.not_eq_true] at ha
      simp only [get_first, ha, Bool.false_eq_true, if_neg, not_false_iff] at h
      rcases ih h with ⟨hmem, hp⟩
      exact ⟨List.mem_cons_of_mem _ hmem, hp⟩

theorem get_first_all_fail {T : Type} {coros : List T} {p : T → Bool}
    (h : ∀ x ∈ coros, p x = false) : get_first coros p = ⟨none, coros, []⟩ := by
  induction coros with
  | nil => rfl
  | cons a rest ih =>
    have ha := h a (List.mem_cons_self _ _)
    have hrest : ∀ x ∈ rest, p x = false := fun x hx => h x (List.mem_cons_of_mem _ hx)
    simp [get_first, ha, ih hrest]

theorem get_first_split {T : Type} (pre post : List T) (w : T) (p : T → Bool)
    (h1 : ∀ x ∈ pre, p x = false) (h2 : p w = true) :
    get_first (pre ++ w :: post) p = ⟨some w, pre ++ [w], post⟩ := by
  induction pre with
  | nil => simp [get_first, h2]
  | cons a rest ih =>
    have ha := h1 a (List.mem_cons_self _ _)
    have hrest : ∀ x ∈ rest, p x = false := fun x hx => h1 x (List.mem_cons_of_mem _ hx)
    simp [get_first, ha, ih hrest]

/-! ## Memoised attribute slots

The `cached_property` decorator lives in src/grobber/decorators.py, which
is not part of the provided sources. -/

/-- Modelled from the spec: the per-attribute memoisation slot of
`cached_property` (src/grobber/decorators.py, not included under src/).
Spec 4.1: a slot is unset or resolved; the error states are not cached,
so a slot holding an outcome is only ever a resolved value. -/
inductive Slot (α : Type) where
  | unset
  | resolved (value : α)
deriving Repr, DecidableEq

/-- Modelled from the spec: reading a memoised attribute
(src/grobber/decorators.py, not included under src/).  Returns the
attribute value together with the slot afterwards: a resolved slot
answers from the cache — for any `compute`, i.e. without recomputing —
while an unset slot runs `compute` once and stores the result. -/
def slotGet {α : Type} (s : Slot α) (compute : Unit → α) : α × Slot α :=
  match s with
  | .resolved v => (v, .resolved v)
  | .unset => (compute (), .resolved (compute ()))

/-- C1: for every finite collection of pending computations and every
predicate, `get_first` returns a value only if that value is the result
of one of the computations and satisfies the predicate; it returns
nothing iff every computation completes without any completed result
satisfying the predicate; in particular it returns nothing for an empty
collection. -/
theorem race_selector_correct {T : Type} (coros : List T) (predicate : T → Bool) :
    (∀ v, (get_first coros predicate).result = some v →
      v ∈ coros ∧ predicate v = true) ∧
    ((get_first coros predicate).result = none ↔
      ∀ x ∈ coros, predicate x = false) ∧
    (get_first ([] : List T) predicate).result = none := by
  refine ⟨fun v h => get_first_result_some h, get_first_result_none_iff coros predicate, rfl⟩

theorem race_selector_correct_witness :
    2 ∈ [0, 2, 3] ∧ (fun n : Nat => decide (1 < n)) 2 = true :=
  (race_selector_correct [0, 2, 3] (fun n : Nat => decide (1 < n))).1 2 (by decide)

/-- C3: when `get_first` finds a result satisfying the predicate, every
computation still outstanding at that moment is cancelled before the
winner is returned, and a cancelled computation's later completion never
overwrites the winner: the returned result does not depend on the
cancelled computations' values, and the memoised slot holding the winner
keeps it whatever a later computation would produce. -/
theorem race_selector_cancellation {T : Type} (pre post : List T) (w : T)
    (predicate : T → Bool) (compute : Unit → Option T)
    (h1 : ∀ x ∈ pre, predicate x = false) (h2 : predicate w = true) :
    (get_first (pre ++ w :: post) predicate).result = some w ∧
    (get_first (pre ++ w :: post) predicate).cancelled = post ∧
    (∀ post2 : List T, (get_first (pre ++ w :: post2) predicate).result = some w) ∧
    slotGet (Slot.resolved (some w)) compute = (some w, Slot.resolved (some w)) := by
  refine ⟨?_, ?_, fun post2 => ?_, rfl⟩
  · rw [get_first_split pre post w predicate h1 h2]
  · rw [get_first_split pre post w predicate h1 h2]
  · rw [get_first_split pre post2 w predicate h1 h2]

theorem race_selector_cancellation_witness :
    (get_first ([0] ++ 3 :: [5, 6]) (fun n : Nat => decide (0 < n))).result = some 3 ∧
    (get_first ([0] ++ 3 :: [5, 6]) (fun n : Nat => decide (0 < n))).cancelled = [5, 6] ∧
    (∀ post2 : List Nat,
      (get_first ([0] ++ 3 :: post2) (fun n : Nat => decide (0 < n))).result = some 3) ∧
    slotGet (Slot.resolved (some 3)) (fun _ => some 99) =
      (some 3, Slot.resolved (some 3)) :=
  race_selector_cancellation [0] [5, 6] 3 (fun n : Nat => decide (0 < n))
    (fun _ => some 99) (by decide) (by decide)

/-! ## `Stream.working` and the stream selection state (models.py 77-147) -/

/-- Outcome of awaiting a `Stream`'s `links` property: the resolved list,
an exception raised while computing it, or cancellation of the
computation. -/
inductive LinksOutcome where
  | ok (links : List String)
  | error
  | cancelled
deriving Repr, DecidableEq

/-- Body of `Stream.working` (models.py 132-140): `len(await self.links) > 0`,
with `asyncio.CancelledError` and `Exception` both caught and converted
to `False` (the failure is logged, not re-raised). -/
def working_compute (o : LinksOutcome) : Bool :=
  match o with
  | .ok links => decide (0 < links.length)
  | .error => false
  | .cancelled => false

/-- C4: `Stream.working` is true exactly when the awaited links list is
non-empty; an exception or a cancellation while computing the links makes
it false instead of propagating; and the result (the negative one
included) is memoised: the first read computes and stores it, and a
resolved slot answers any later read from the cache, whatever computation
is supplied. -/
theorem stream_working_spec :
    (∀ links : List String, working_compute (.ok links) = decide (links ≠ [])) ∧
    working_compute .error = false ∧
    working_compute .cancelled = false ∧
    (∀ o : LinksOutcome, slotGet Slot.unset (fun _ => working_compute o) =
      (working_compute o, Slot.resolved (working_compute o))) ∧
    (∀ (b : Bool) (compute : Unit → Bool),
      slotGet (Slot.resolved b) compute = (b, Slot.resolved b)) := by
  refine ⟨fun links => ?_, rfl, rfl, fun o => rfl, fun b compute => rfl⟩
  cases links <;> simp [working_compute]

/-- A stream candidate as the selection pipeline sees it: its class-level
`PRIORITY`, the resolved `external` property, and the outcome of awaiting
its `links` (which determines `working`). -/
structure StreamModel where
  priority : Int
  external : Bool
  linksOutcome : LinksOutcome
deriving Repr, DecidableEq

/-- `await stream.working` during selection (first read of the slot). -/
def stream_working (s : StreamModel) : Bool := working_compute s.linksOutcome

/-- `Stream.working_external_self` (models.py 142-147): the stream itself
if it is external and working, `None` otherwise. -/
def working_external_self (s : StreamModel) : Option StreamModel :=
  if s.external && stream_working s then some s else none

/-- The condition `working_external_self` tests: externally usable and
working. -/
def passes_validation (s : StreamModel) : Bool := s.external && stream_working s

theorem working_external_self_eq (s : StreamModel) :
    working_external_self s = if passes_validation s then some s else none := rfl

/-! ## `Episode.stream` priority grouping (models.py 244-260) -/

/-- The order used by `all_streams.sort(key=attrgetter("PRIORITY"),
reverse=True)` (models.py 249): descending priority. -/
def priority_ge (a b : StreamModel) : Prop := b.priority ≤ a.priority

instance : DecidableRel priority_ge := fun a b =>
  inferInstanceAs (Decidable (b.priority ≤ a.priority))

instance : IsTotal StreamModel priority_ge :=
  ⟨fun a b => le_total b.priority a.priority⟩

instance : IsTrans StreamModel priority_ge :=
  ⟨fun _ _ _ h1 h2 => le_trans h2 h1⟩

/-- The in-place sort of models.py 249 (Python `list.sort` is a stable
sort; so is insertion sort). -/
def sort_streams (l : List StreamModel) : List StreamModel :=
  List.insertionSort priority_ge l

/-- `itertools.groupby(all_streams, attrgetter("PRIORITY"))` (models.py
251): the maximal runs of adjacent streams with equal priority, in
order. -/
def stream_groups : List StreamModel → List (List StreamModel)
  | [] => []
  | h :: t =>
    (h :: t.takeWhile (fun s => s.priority == h.priority)) ::
      stream_groups (t.dropWhile (fun s => s.priority == h.priority))
termination_by l => l.length
decreasing_by
  simp only [List.length_cons]
  exact Nat.lt_succ_of_le (List.dropWhile_sublist _).length_le

/-- One priority group's race (models.py 255): `get_first` over the
`working_external_self` coroutines of the group's streams, with the
default predicate `bool` (a stream object is truthy, `None` is falsy).
`order` is the completion order the scheduler happens to produce for the
concurrent validations — any permutation of the group. -/
def group_race (order : List StreamModel → List StreamModel)
    (g : List StreamModel) : RaceResult (Option StreamModel) :=
  get_first ((order g).map working_external_self) Option.isSome

/-- The `for priority, streams in groupby(...)` loop of `Episode.stream`
(models.py 251-258): return the first group's winner; if a group has
none, fall through to the next; falling off the loop returns `None`. -/
def first_winner (order : List StreamModel → List StreamModel) :
    List (List StreamModel) → Option StreamModel
  | [] => none
  | g :: gs =>
    match (group_race order g).result with
    | some (some s) => some s
    | _ => first_winner order gs

/-- `Episode.stream` selection (models.py 244-260): sort the candidates
by descending priority, group by priority, race each group in turn. -/
def episode_stream (order : List StreamModel → List StreamModel)
    (streams : List StreamModel) : Option StreamModel :=
  first_winner order (stream_groups (sort_streams streams))

theorem group_race_result_none {order : List StreamModel → List StreamModel}
    (Horder : ∀ g, (order g).Perm g) (g : List StreamModel)
    (h : (group_race order g).result = none) :
    ∀ s ∈ g, passes_validation s = false := by
  intro s hs
  have h2 := (get_first_result_none_iff _ _).1 h
  have hmem : working_external_self s ∈ (order g).map working_external_self :=
    List.mem_map_of_mem _ (((Horder g).mem_iff).2 hs)
  have h3 := h2 _ hmem
  rw [working_external_self_eq] at h3
  by_cases hv : passes_validation s = true
  · rw [if_pos hv] at h3
    simp at h3
  · simpa using hv

theorem group_race_result_some {order : List StreamModel → List StreamModel}
    (Horder : ∀ g, (order g).Perm g) (g : List StreamModel)
    {v : Option StreamModel} (h : (group_race order g).result = some v) :
    ∃ s, v = some s ∧ s ∈ g ∧ passes_validation s = true := by
  obtain ⟨hmem, hp⟩ := get_first_result_some h
  rw [List.mem_map] at hmem
  obtain ⟨x, hx, hwx⟩ := hmem
  rw [working_external_self_eq] at hwx
  by_cases hv : passes_validation x = true
  · rw [if_pos hv] at hwx
    exact ⟨x, hwx.symm, ((Horder g).mem_iff).1 hx, hv⟩
  · rw [if_neg hv] at hwx
    rw [← hwx] at hp
    simp at hp

theorem first_winner_sorted (order : List StreamModel → List StreamModel)
    (Horder : ∀ g, (order g).Perm g) :
    ∀ (n : Nat) (l : List StreamModel), l.length ≤ n → List.Sorted priority_ge l →
      (∀ s, first_winner order (stream_groups l) = some s →
          s ∈ l ∧ passes_validation s = true ∧
          ∀ t ∈ l, s.priority < t.priority → passes_validation t = false) ∧
      (first_winner order (stream_groups l) = none →
          ∀ t ∈ l, passes_validation t = false) := by
  intro n
  induction n with
  | zero =>
    intro l hl _
    rw [Nat.le_zero, List.length_eq_zero] at hl
    subst hl
    simp [stream_groups, first_winner]
  | succ n ih =>
    intro l hl hs
    match l with
    | [] => simp [stream_groups, first_winner]
    | h :: t =>
      have hgroups : stream_groups (h :: t) =
          (h :: t.takeWhile (fun s : StreamModel => s.priority == h.priority)) ::
            stream_groups (t.dropWhile (fun s : StreamModel => s.priority == h.priority)) := by
        rw [stream_groups]
      have hg_pri : ∀ x ∈ h :: t.takeWhile (fun s : StreamModel => s.priority == h.priority),
          x.priority = h.priority := by
        intro x hx
        rcases List.mem_cons.1 hx with hx | hx
        · rw [hx]
        · have h1 := List.mem_takeWhile_imp
            (p := fun s : StreamModel => s.priority == h.priority) hx
          exact eq_of_beq h1
      have hg_sub : ∀ x ∈ h :: t.takeWhile (fun s : StreamModel => s.priority == h.priority),
          x ∈ h :: t := by
        intro x hx
        rcases List.mem_cons.1 hx with hx | hx
        · rw [hx]; exact List.mem_cons_self _ _
        · exact List.mem_cons_of_mem _
            ((List.takeWhile_sublist (fun s : StreamModel => s.priority == h.priority)).subset hx)
      have hsorted_t : List.Sorted priority_ge t := (List.sorted_cons.1 hs).2
      have hhead : ∀ b ∈ t, b.priority ≤ h.priority := (List.sorted_cons.1 hs).1
      have hbound : ∀ x ∈ h :: t, x.priority ≤ h.priority := by
        intro x hx
        rcases List.mem_cons.1 hx with hx | hx
        · rw [hx]
        · exact hhead x hx
      have hsorted_rest :
          List.Sorted priority_ge (t.dropWhile (fun s : StreamModel => s.priority == h.priority)) :=
        List.Pairwise.sublist
          (List.dropWhile_sublist (fun s : StreamModel => s.priority == h.priority)) hsorted_t
      have hrest_sub : ∀ x ∈ t.dropWhile (fun s : StreamModel => s.priority == h.priority),
          x ∈ h :: t := fun x hx =>
        List.mem_cons_of_mem _
          ((List.dropWhile_sublist (fun s : StreamModel => s.priority == h.priority)).subset hx)
      have hlen_rest : (t.dropWhile (fun s : StreamModel => s.priority == h.priority)).length ≤ n := by
        have h1 : (t.dropWhile (fun s : StreamModel => s.priority == h.priority)).length ≤ t.length :=
          (List.dropWhile_sublist (fun s : StreamModel => s.priority == h.priority)).length_le
        have h2 : t.length + 1 ≤ n + 1 := by simpa using hl
        omega
      have hsplit : t.takeWhile (fun s : StreamModel => s.priority == h.priority) ++
          t.dropWhile (fun s : StreamModel => s.priority == h.priority) = t := by
        rw [List.takeWhile_append_dropWhile]
      have ihrest := ih (t.dropWhile (fun s : StreamModel => s.priority == h.priority))
        hlen_rest hsorted_rest
      cases hr : (group_race order
          (h :: t.takeWhile (fun s : StreamModel => s.priority == h.priority))).result with
      | some v =>
        obtain ⟨s, rfl, hsg, hsv⟩ := group_race_result_some Horder _ hr
        have hfw : first_winner order (stream_groups (h :: t)) = some s := by
          rw [hgroups, first_winner, hr]
        constructor
        · intro s2 hsome
          rw [hfw] at hsome
          cases hsome
          refine ⟨hg_sub s hsg, hsv, ?_⟩
          intro t2 ht2 hgt
          have h1 : s.priority = h.priority := hg_pri s hsg
          have h2 : t2.priority ≤ h.priority := hbound t2 ht2
          omega
        · intro hnone
          rw [hfw] at hnone
          cases hnone
      | none =>
        have hgfail : ∀ x ∈ h :: t.takeWhile (fun s : StreamModel => s.priority == h.priority),
            passes_validation x = false :=
          group_race_result_none Horder _ hr
        have hfw : first_winner order (stream_groups (h :: t)) =
            first_winner order
              (stream_groups (t.dropWhile (fun s : StreamModel => s.priority == h.priority))) := by
          rw [hgroups, first_winner, hr]
        have hcases : ∀ x ∈ h :: t,
            x ∈ h :: t.takeWhile (fun s : StreamModel => s.priority == h.priority) ∨
            x ∈ t.dropWhile (fun s : StreamModel => s.priority == h.priority) := by
          intro x hx
          rcases List.mem_cons.1 hx with hx | hx
          · rw [hx]; exact Or.inl (List.mem_cons_self _ _)
          · rw [← hsplit] at hx
            rcases List.mem_append.1 hx with hx | hx
            · exact Or.inl (List.mem_cons_of_mem _ hx)
            · exact Or.inr hx
        constructor
        · intro s hsome
          rw [hfw] at hsome
          obtain ⟨hsmem, hsv, hhigher⟩ := ihrest.1 s hsome
          refine ⟨hrest_sub s hsmem, hsv, ?_⟩
          intro t2 ht2 hgt
          rcases hcases t2 ht2 with h2 | h2
          · exact hgfail t2 h2
          · exact hhigher t2 h2 hgt
        · intro hnone t2 ht2
          rw [hfw] at hnone
          rcases hcases t2 ht2 with h2 | h2
          · exact hgfail t2 h2
          · exact ihrest.2 hnone t2 h2

/-- C2: `Episode.stream` evaluates stream candidates in groups of equal
`PRIORITY` in strictly descending priority order, racing the test
"externally usable AND working" concurrently within each group (any
completion order `order`); a returned stream is a candidate that passed
validation and no candidate of strictly higher priority passed; nothing
is returned only when every candidate fails; and for candidates with
priorities [10, 10, 5] where both priority-10 candidates fail validation
and the priority-5 candidate passes, the priority-5 candidate is
returned and both priority-10 validations were attempted (examined by
the race). -/
theorem episode_stream_priority_law (order : List StreamModel → List StreamModel)
    (Horder : ∀ g, (order g).Perm g) :
    (∀ (streams : List StreamModel) (s : StreamModel),
       episode_stream order streams = some s →
         s ∈ streams ∧ passes_validation s = true ∧
         ∀ t ∈ streams, s.priority < t.priority → passes_validation t = false) ∧
    (∀ streams : List StreamModel, episode_stream order streams = none →
       ∀ t ∈ streams, passes_validation t = false) ∧
    (∀ a b c : StreamModel, a.priority = 10 → b.priority = 10 → c.priority = 5 →
       passes_validation a = false → passes_validation b = false →
       passes_validation c = true →
       episode_stream order [a, b, c] = some c ∧
       (group_race order [a, b]).examined.length = 2) := by
  have hmain : ∀ streams : List StreamModel,
      (∀ s, first_winner order (stream_groups (sort_streams streams)) = some s →
        s ∈ sort_streams streams ∧ passes_validation s = true ∧
        ∀ t ∈ sort_streams streams, s.priority < t.priority →
          passes_validation t = false) ∧
      (first_winner order (stream_groups (sort_streams streams)) = none →
        ∀ t ∈ sort_streams streams, passes_validation t = false) := by
    intro streams
    exact first_winner_sorted order Horder (sort_streams streams).length _ le_rfl
      (List.sorted_insertionSort priority_ge streams)
  have hperm : ∀ streams : List StreamModel, (sort_streams streams).Perm streams :=
    fun streams => List.perm_insertionSort priority_ge streams
  refine ⟨?_, ?_, ?_⟩
  · intro streams s hsome
    obtain ⟨hmem, hv, hhigher⟩ := (hmain streams).1 s hsome
    exact ⟨(hperm streams).mem_iff.1 hmem, hv,
      fun t ht => hhigher t ((hperm streams).mem_iff.2 ht)⟩
  · intro streams hnone t ht
    exact (hmain streams).2 hnone t ((hperm streams).mem_iff.2 ht)
  · intro a b c hpa hpb hpc hva hvb hvc
    have hsorted : List.Sorted priority_ge [a, b, c] := by
      unfold priority_ge
      simp only [List.sorted_cons, List.mem_cons]
      refine ⟨?_, ?_, ?_⟩ <;> simp_all
    have hsort : sort_streams [a, b, c] = [a, b, c] :=
      List.Sorted.insertionSort_eq hsorted
    have hgroups : stream_groups [a, b, c] = [[a, b], [c]] := by
      rw [stream_groups]
      rw [show (List.takeWhile (fun s => s.priority == a.priority) [b, c]) = [b] by
        simp [List.takeWhile, hpa, hpb, hpc]]
      rw [show (List.dropWhile (fun s => s.priority == a.priority) [b, c]) = [c] by
        simp [List.dropWhile, hpa, hpb, hpc]]
      rw [stream_groups]
      simp [stream_groups]
    have hrace1 : group_race order [a, b] =
        ⟨none, (order [a, b]).map working_external_self, []⟩ := by
      apply get_first_all_fail
      intro y hy
      rw [List.mem_map] at hy
      obtain ⟨x, hx, hyx⟩ := hy
      have hxab : x ∈ [a, b] := (Horder [a, b]).mem_iff.1 hx
      have hwx : working_external_self x = none := by
        rw [working_external_self_eq]
        rcases List.mem_cons.1 hxab with hx2 | hx2
        · rw [hx2, hva]; rfl
        · rcases List.mem_cons.1 hx2 with hx3 | hx3
          · rw [hx3, hvb]; rfl
          · cases hx3
      rw [← hyx, hwx]
      rfl
    have horderc : order [c] = [c] := List.perm_singleton.1 (Horder [c])
    have hrace2 : (group_race order [c]).result = some (some c) := by
      unfold group_race
      rw [horderc]
      have : working_external_self c = some c := by
        rw [working_external_self_eq, if_pos hvc]
      simp [get_first, this]
    constructor
    · unfold episode_stream
      rw [hsort, hgroups, first_winner, hrace1]
      rw [first_winner, hrace2]
    · rw [hrace1]
      simp [(Horder [a, b]).length_eq]

theorem episode_stream_priority_law_witness :
    episode_stream id
        [⟨10, false, .ok []⟩, ⟨10, true, .error⟩, ⟨5, true, .ok ["u"]⟩] =
      some ⟨5, true, .ok ["u"]⟩ ∧
    (group_race id [⟨10, false, .ok []⟩, ⟨10, true, .error⟩]).examined.length = 2 :=
  ((episode_stream_priority_law id (fun g => List.Perm.refl g)).2.2
    ⟨10, false, .ok []⟩ ⟨10, true, .error⟩ ⟨5, true, .ok ["u"]⟩
    rfl rfl rfl (by decide) (by decide) (by decide))

/-! ## Dirty propagation (models.py 201-215 and 341-355) -/

/-- Modelled from the spec: the dirty flag of the `Expiring` base class
(src/grobber/stateful.py, not included under src/).  Spec section 3:
every entity carries a `dirty : bool`; a `Stream` does not override the
accessors, so its flag is plain state. -/
structure StreamEntity where
  dirty : Bool
deriving Repr, DecidableEq

/-- An `Episode`'s dirty-relevant state: its own `_dirty` flag and the
`_streams` list when the `streams` attribute has resolved (`hasattr`
checks become `Option`). -/
structure EpisodeEntity where
  _dirty : Bool
  _streams : Option (List StreamEntity)
deriving Repr, DecidableEq

/-- `Episode.dirty` getter (models.py 201-208): own flag, else any dirty
stream among the resolved `_streams`. -/
def episode_dirty (ep : EpisodeEntity) : Bool :=
  if ep._dirty then true
  else
    match ep._streams with
    | some streams => streams.any (fun s => s.dirty)
    | none => false

/-- `Episode.dirty` setter (models.py 210-215): store the value and push
it to every resolved stream. -/
def episode_set_dirty (ep : EpisodeEntity) (value : Bool) : EpisodeEntity :=
  { _dirty := value,
    _streams := ep._streams.map (List.map (fun _ => ({ dirty := value } : StreamEntity))) }

/-- An `Anime`'s (Show's) dirty-relevant state: its own `_dirty` flag and
the values of the `_episodes` mapping when present. -/
structure AnimeEntity where
  _dirty : Bool
  _episodes : Option (List EpisodeEntity)
deriving Repr, DecidableEq

/-- `Anime.dirty` getter (models.py 341-348). -/
def anime_dirty (a : AnimeEntity) : Bool :=
  if a._dirty then true
  else
    match a._episodes with
    | some eps => eps.any episode_dirty
    | none => false

/-- `Anime.dirty` setter (models.py 350-355): store the value and push it
to every episode (which in turn pushes it to its streams). -/
def anime_set_dirty (a : AnimeEntity) (value : Bool) : AnimeEntity :=
  { _dirty := value,
    _episodes := a._episodes.map (List.map (fun ep => episode_set_dirty ep value)) }

/-- C5 counterexample: a Show whose single episode holds a single dirty
stream reports dirty; clearing the dirty flag at the Show level (plain
`anime.dirty = False`, no explicit cascade requested) nevertheless
resets the child episode's and child stream's flags to false, because
the setter always cascades.  This refutes the claim that clearing at
the Show level leaves the children's flags alone. -/
theorem anime_clear_cascades_counterexample :
    anime_dirty ⟨false, some [⟨false, some [⟨true⟩]⟩]⟩ = true ∧
    anime_set_dirty ⟨false, some [⟨false, some [⟨true⟩]⟩]⟩ false =
      ⟨false, some [⟨false, some [⟨false⟩]⟩]⟩ := by
  constructor
  · rfl
  · rfl

/-- C5 (amended): setting dirty to true on a Stream makes its owning
Episode and that Episode's owning Show both report dirty == true; and
clearing the dirty flag at the Show level cascades unconditionally — it
clears the Show's own flag and the dirty flags of all child Episodes and
Streams, so the Show reports clean afterwards. -/
theorem dirty_propagation_amended (a : AnimeEntity) (eps : List EpisodeEntity)
    (ep : EpisodeEntity) (streams : List StreamEntity) (st : StreamEntity)
    (heps : a._episodes = some eps) (hep : ep ∈ eps)
    (hstreams : ep._streams = some streams) (hst : st ∈ streams)
    (hdirty : st.dirty = true) :
    episode_dirty ep = true ∧ anime_dirty a = true ∧
    anime_dirty (anime_set_dirty a false) = false ∧
    (anime_set_dirty a false)._dirty = false ∧
    (∀ eps2, (anime_set_dirty a false)._episodes = some eps2 →
      ∀ ep2 ∈ eps2, ep2._dirty = false ∧
        ∀ sts2, ep2._streams = some sts2 → ∀ st2 ∈ sts2, st2.dirty = false) := by
  have hepd : episode_dirty ep = true := by
    unfold episode_dirty
    by_cases hd : ep._dirty
    · simp [hd]
    · rw [if_neg hd, hstreams]
      exact List.any_eq_true.2 ⟨st, hst, hdirty⟩
  have hcleared : ∀ ep2 ∈ eps.map (fun e => episode_set_dirty e false),
      ep2._dirty = false ∧
        ∀ sts2, ep2._streams = some sts2 → ∀ st2 ∈ sts2, st2.dirty = false := by
    intro ep2 hep2
    rcases List.mem_map.1 hep2 with ⟨e, _, rfl⟩
    refine ⟨rfl, ?_⟩
    intro sts2 hsts2 st2 hst2
    unfold episode_set_dirty at hsts2
    cases he : e._streams with
    | none => rw [he] at hsts2; cases hsts2
    | some sts =>
      rw [he] at hsts2
      simp only [Option.map_some'] at hsts2
      cases hsts2
      rcases List.mem_map.1 hst2 with ⟨_, _, rfl⟩
      rfl
  refine ⟨hepd, ?_, ?_, rfl, ?_⟩
  · unfold anime_dirty
    by_cases hd : a._dirty
    · simp [hd]
    · rw [if_neg hd, heps]
      exact List.any_eq_true.2 ⟨ep, hep, hepd⟩
  · unfold anime_dirty anime_set_dirty
    rw [if_neg (by simp)]
    simp only [heps, Option.map_some']
    rw [List.any_eq_false]
    intro ep2 hep2
    obtain ⟨hd2, hs2⟩ := hcleared ep2 hep2
    unfold episode_dirty
    rw [if_neg (by simp [hd2])]
    cases hse : ep2._streams with
    | none => simp
    | some sts2 =>
      simp only [Bool.not_eq_true, List.any_eq_false]
      intro st2 hst2
      simp [hs2 sts2 hse st2 hst2]
  · intro eps2 heps2
    unfold anime_set_dirty at heps2
    rw [heps] at heps2
    simp only [Option.map_some'] at heps2
    cases heps2
    exact hcleared

theorem dirty_propagation_amended_witness :
    episode_dirty ⟨false, some [⟨true⟩]⟩ = true ∧
    anime_dirty ⟨false, some [⟨false, some [⟨true⟩]⟩]⟩ = true ∧
    anime_dirty (anime_set_dirty ⟨false, some [⟨false, some [⟨true⟩]⟩]⟩ false) = false ∧
    (anime_set_dirty ⟨false, some [⟨false, some [⟨true⟩]⟩]⟩ false)._dirty = false ∧
    (∀ eps2,
      (anime_set_dirty ⟨false, some [⟨false, some [⟨true⟩]⟩]⟩ false)._episodes = some eps2 →
      ∀ ep2 ∈ eps2, ep2._dirty = false ∧
        ∀ sts2, ep2._streams = some sts2 → ∀ st2 ∈ sts2, st2.dirty = false) :=
  dirty_propagation_amended ⟨false, some [⟨false, some [⟨true⟩]⟩]⟩
    [⟨false, some [⟨true⟩]⟩] ⟨false, some [⟨true⟩]⟩ [⟨true⟩] ⟨true⟩
    rfl (by decide) rfl (by decide) rfl

/-! ## The episodes dictionary (models.py 390-417)

The `_episodes` dict is embedded as an association list from episode
index to episode object; `Ep` abstracts the (site-specific) Episode
objects, `mk` the abstract `get_episode` constructor. -/

theorem lookup_append_left {Ep : Type} {d : List (Nat × Ep)} {d2 : List (Nat × Ep)}
    {i : Nat} {v : Ep} (h : List.lookup i d = some v) :
    List.lookup i (d ++ d2) = some v := by
  induction d with
  | nil => simp [List.lookup] at h
  | cons q rest ih =>
    rw [List.cons_append, List.lookup]
    rw [List.lookup] at h
    cases hq : (i == q.1) with
    | true => rw [hq] at h; simpa using h
    | false => rw [hq] at h; simpa using ih h

theorem lookup_append_right {Ep : Type} {d : List (Nat × Ep)} {d2 : List (Nat × Ep)}
    {i : Nat} (h : List.lookup i d = none) :
    List.lookup i (d ++ d2) = List.lookup i d2 := by
  induction d with
  | nil => simp
  | cons q rest ih =>
    rw [List.cons_append, List.lookup]
    rw [List.lookup] at h
    cases hq : (i == q.1) with
    | true => rw [hq] at h; simp at h
    | false => rw [hq] at h; simpa using ih h

theorem lookup_isSome_of_any {Ep : Type} {d : List (Nat × Ep)} {i : Nat}
    (h : d.any (fun q => q.1 == i) = true) : ∃ v, List.lookup i d = some v := by
  induction d with
  | nil => simp at h
  | cons q rest ih =>
    rw [List.any_cons] at h
    rw [List.lookup]
    by_cases hq : q.1 = i
    · rw [show (i == q.1) = true by simp [hq]]
      exact ⟨q.2, rfl⟩
    · rw [show (i == q.1) = false by simp only [beq_eq_false_iff_ne]; omega]
      have h2 : rest.any (fun q => q.1 == i) = true := by
        rcases Bool.or_eq_true_iff.1 h with h2 | h2
        · exact absurd (eq_of_beq h2) hq
        · exact h2
      exact ih h2

theorem lookup_mem_keys {Ep : Type} {d : List (Nat × Ep)} {i : Nat} {v : Ep}
    (h : List.lookup i d = some v) : i ∈ d.map Prod.fst := by
  induction d with
  | nil => simp [List.lookup] at h
  | cons q rest ih =>
    rw [List.lookup] at h
    cases hq : (i == q.1) with
    | true =>
      rw [List.map_cons]
      exact (eq_of_beq hq) ▸ List.mem_cons_self _ _
    | false =>
      rw [hq] at h
      exact List.mem_cons_of_mem _ (ih h)

theorem lookup_isSome_of_mem_keys {Ep : Type} {d : List (Nat × Ep)} {i : Nat}
    (h : i ∈ d.map Prod.fst) : ∃ v, List.lookup i d = some v := by
  apply lookup_isSome_of_any
  rw [List.any_eq_true]
  rcases List.mem_map.1 h with ⟨q, hq, hfst⟩
  exact ⟨q, hq, by simp [hfst]⟩

/-- One pass of the re-sync loop body (models.py 400-402): `if i not in
self._episodes: self._episodes[i] = await self.get_episode(i)` — a
missing key is added (a fresh dict key is appended in insertion order),
a present one leaves the mapping untouched. -/
def fill_step {Ep : Type} (mk : Nat → Ep) (d : List (Nat × Ep)) (i : Nat) :
    List (Nat × Ep) :=
  if d.any (fun q => q.1 == i) then d else d ++ [(i, mk i)]

/-- The `for i in range(await self.episode_count)` re-sync loop
(models.py 400-402). -/
def fill_episodes {Ep : Type} (d : List (Nat × Ep)) (count : Nat) (mk : Nat → Ep) :
    List (Nat × Ep) :=
  (List.range count).foldl (fill_step mk) d

theorem lookup_foldl_fill_step {Ep : Type} (mk : Nat → Ep) :
    ∀ (idxs : List Nat) (d : List (Nat × Ep)) (i : Nat),
      List.lookup i (idxs.foldl (fill_step mk) d) =
        match List.lookup i d with
        | some v => some v
        | none => if i ∈ idxs then some (mk i) else none := by
  intro idxs
  induction idxs with
  | nil =>
    intro d i
    cases h : List.lookup i d <;> simp [h]
  | cons j idxs ih =>
    intro d i
    rw [List.foldl_cons, ih (fill_step mk d j) i]
    by_cases hj : d.any (fun q => q.1 == j) = true
    · rw [show fill_step mk d j = d from if_pos hj]
      cases h : List.lookup i d with
      | some v => simp
      | none =>
        by_cases hij : i = j
        · obtain ⟨v, hv⟩ := lookup_isSome_of_any hj
          rw [hij] at h
          rw [h] at hv
          cases hv
        · simp [List.mem_cons, hij]
    · rw [show fill_step mk d j = d ++ [(j, mk j)] from if_neg hj]
      cases h : List.lookup i d with
      | some v => rw [lookup_append_left h]
      | none =>
        rw [lookup_append_right h]
        by_cases hij : i = j
        · subst hij
          rw [show List.lookup i [(i, mk i)] = some (mk i) by
            simp only [List.lookup, BEq.refl]]
          simp
        · rw [show List.lookup i [(j, mk j)] = none by
            simp only [List.lookup]
            rw [show (i == j) = false by simp only [beq_eq_false_iff_ne]; omega]]
          simp [List.mem_cons, hij]

theorem lookup_fill_episodes {Ep : Type} (mk : Nat → Ep) (d : List (Nat × Ep))
    (count : Nat) (i : Nat) :
    List.lookup i (fill_episodes d count mk) =
      match List.lookup i d with
      | some v => some v
      | none => if i < count then some (mk i) else none := by
  rw [fill_episodes, lookup_foldl_fill_step mk (List.range count) d i]
  cases h : List.lookup i d with
  | some v => rfl
  | none => simp [List.mem_range]

/-- The state of an `Anime` (Show) relevant to episode lookup:
`episodesCache` is the `_episodes` dict when the attribute exists
(`hasattr`), `episodeCount` the memoised `episode_count`, `allEpisodes`
the list `get_episodes()` would produce and `mkEpisode` the
`get_episode(i)` constructor (both abstract site-specific operations). -/
structure AnimeState (Ep : Type) where
  episodesCache : Option (List (Nat × Ep))
  episodeCount : Nat
  allEpisodes : List Ep
  mkEpisode : Nat → Ep

/-- `Anime.episodes` (models.py 394-407): with a cache whose size
differs from the episode count, fill the missing indices in place;
without a cache, build the dict as `dict(enumerate(await
self.get_episodes()))`. -/
def anime_episodes {Ep : Type} (a : AnimeState Ep) : List (Nat × Ep) :=
  match a.episodesCache with
  | some d =>
    if d.length ≠ a.episodeCount then fill_episodes d a.episodeCount a.mkEpisode
    else d
  | none => a.allEpisodes.enum

/-- The payload of the `EpisodeNotFound` condition
(src/grobber/exceptions.py): the requested index and the episode
count. -/
structure EpisodeNotFound where
  index : Nat
  count : Nat
deriving Repr, DecidableEq

/-- `Anime.get` (models.py 409-417): answer from the cache when the
index is present, otherwise go through `episodes`; a missing key there
(`KeyError`) becomes `EpisodeNotFound(index, episode_count)`. -/
def anime_get {Ep : Type} (a : AnimeState Ep) (index : Nat) :
    Except EpisodeNotFound Ep :=
  let fromEpisodes : Except EpisodeNotFound Ep :=
    match List.lookup index (anime_episodes a) with
    | some ep => Except.ok ep
    | none => Except.error ⟨index, a.episodeCount⟩
  match a.episodesCache with
  | some d =>
    match List.lookup index d with
    | some ep => Except.ok ep
    | none => fromEpisodes
  | none => fromEpisodes

/-- C8: when `Anime.episodes` runs after the episode count has grown
beyond the number of cached episodes, every episode object already
present at an index is still the one found at that index afterwards
(existing entries are never reconstructed or discarded), and exactly the
missing indices below the count are filled with newly constructed
`get_episode(i)` objects (indices at or above the count stay absent). -/
theorem episodes_resync_preserves {Ep : Type} (a : AnimeState Ep)
    (d : List (Nat × Ep)) (hcache : a.episodesCache = some d)
    (hgrow : d.length < a.episodeCount) :
    (∀ i e, List.lookup i d = some e → List.lookup i (anime_episodes a) = some e) ∧
    (∀ i, List.lookup i d = none →
      List.lookup i (anime_episodes a) =
        if i < a.episodeCount then some (a.mkEpisode i) else none) := by
  have hne : d.length ≠ a.episodeCount := Nat.ne_of_lt hgrow
  have heps : anime_episodes a = fill_episodes d a.episodeCount a.mkEpisode := by
    unfold anime_episodes
    rw [hcache]
    simp [hne]
  constructor
  · intro i e h
    rw [heps, lookup_fill_episodes, h]
  · intro i h
    rw [heps, lookup_fill_episodes, h]

theorem episodes_resync_preserves_witness :
    (List.lookup 0 (anime_episodes ⟨some [(0, 100)], 2, [], fun i => i⟩) = some 100) ∧
    (List.lookup 1 (anime_episodes ⟨some [(0, 100)], 2, [], fun i => i⟩) =
      if 1 < 2 then some 1 else none) := by
  have h := episodes_resync_preserves
    (⟨some [(0, 100)], 2, [], fun i => i⟩ : AnimeState Nat)
    [(0, 100)] rfl (by decide)
  exact ⟨h.1 0 100 rfl, h.2 1 rfl⟩

theorem lookup_none_of_bound {Ep : Type} {d : List (Nat × Ep)} {c i : Nat}
    (hbound : ∀ q ∈ d, q.1 < c) (hi : c ≤ i) : List.lookup i d = none := by
  cases h : List.lookup i d with
  | none => rfl
  | some v =>
    have hk := lookup_mem_keys h
    rcases List.mem_map.1 hk with ⟨q, hq, hfst⟩
    have := hbound q hq
    omega

theorem keys_complete {Ep : Type} (d : List (Nat × Ep)) (count : Nat)
    (hnodup : (d.map Prod.fst).Nodup) (hbound : ∀ q ∈ d, q.1 < count)
    (hlen : d.length = count) :
    ∀ i, i < count → ∃ v, List.lookup i d = some v := by
  have hsub : (d.map Prod.fst) ⊆ List.range count := by
    intro k hk
    rcases List.mem_map.1 hk with ⟨q, hq, rfl⟩
    exact List.mem_range.2 (hbound q hq)
  have hsubperm := List.subperm_of_subset hnodup hsub
  have hlen2 : (List.range count).length ≤ (d.map Prod.fst).length := by
    simp [hlen]
  have hperm := hsubperm.perm_of_length_le hlen2
  intro i hi
  exact lookup_isSome_of_mem_keys (hperm.mem_iff.2 (List.mem_range.2 hi))

theorem lookup_enumFrom {Ep : Type} :
    ∀ (l : List Ep) (n i : Nat),
      List.lookup i (List.enumFrom n l) =
        if i < n then none else l.get? (i - n) := by
  intro l
  induction l with
  | nil =>
    intro n i
    simp [List.enumFrom]
  | cons a l ih =>
    intro n i
    rw [List.enumFrom, List.lookup]
    by_cases hin : i = n
    · subst hin
      rw [show (i == i) = true from by simp]
      rw [if_neg (by omega), show i - i = 0 from by omega]
      rfl
    · rw [show (i == n) = false from by simp only [beq_eq_false_iff_ne]; omega]
      rw [ih (n + 1) i]
      by_cases hlt : i < n
      · rw [if_pos (by omega), if_pos hlt]
      · rw [if_neg (by omega), if_neg hlt]
        rw [show i - n = (i - (n + 1)) + 1 from by omega]
        rfl

theorem lookup_enum {Ep : Type} (l : List Ep) (i : Nat) :
    List.lookup i l.enum = l.get? i := by
  rw [List.enum, lookup_enumFrom l 0 i, if_neg (by omega), Nat.sub_zero]

/-- The dict/count invariants an `AnimeState` picked up from real
execution satisfies: cached keys are distinct and below the episode
count; without a cache, `get_episodes()` yields `episode_count`-many
episodes. -/
def cache_ok {Ep : Type} (a : AnimeState Ep) : Bool :=
  match a.episodesCache with
  | some d =>
    decide ((d.map Prod.fst).Nodup) && d.all (fun q => q.1 < a.episodeCount)
  | none => a.allEpisodes.length == a.episodeCount

theorem cache_invariants_some {Ep : Type} {a : AnimeState Ep} {d : List (Nat × Ep)}
    (hc : a.episodesCache = some d) (hok : cache_ok a = true) :
    (d.map Prod.fst).Nodup ∧ ∀ q ∈ d, q.1 < a.episodeCount := by
  unfold cache_ok at hok
  rw [hc] at hok
  simp only [Bool.and_eq_true, decide_eq_true_eq, List.all_eq_true] at hok
  exact ⟨hok.1, fun q hq => by simpa using hok.2 q hq⟩

theorem cache_invariants_none {Ep : Type} {a : AnimeState Ep}
    (hc : a.episodesCache = none) (hok : cache_ok a = true) :
    a.allEpisodes.length = a.episodeCount := by
  unfold cache_ok at hok
  rw [hc] at hok
  simpa using hok

theorem anime_episodes_of_cache {Ep : Type} {a : AnimeState Ep} {d : List (Nat × Ep)}
    (hc : a.episodesCache = some d) :
    anime_episodes a =
      if d.length ≠ a.episodeCount then fill_episodes d a.episodeCount a.mkEpisode
      else d := by
  unfold anime_episodes
  rw [hc]

theorem anime_episodes_of_nocache {Ep : Type} {a : AnimeState Ep}
    (hc : a.episodesCache = none) :
    anime_episodes a = a.allEpisodes.enum := by
  unfold anime_episodes
  rw [hc]

theorem anime_get_of_cache {Ep : Type} {a : AnimeState Ep} {d : List (Nat × Ep)}
    (hc : a.episodesCache = some d) (index : Nat) :
    anime_get a index =
      match List.lookup index d with
      | some ep => Except.ok ep
      | none =>
        match List.lookup index (anime_episodes a) with
        | some ep => Except.ok ep
        | none => Except.error ⟨index, a.episodeCount⟩ := by
  unfold anime_get
  rw [hc]

theorem anime_get_of_nocache {Ep : Type} {a : AnimeState Ep}
    (hc : a.episodesCache = none) (index : Nat) :
    anime_get a index =
      match List.lookup index (anime_episodes a) with
      | some ep => Except.ok ep
      | none => Except.error ⟨index, a.episodeCount⟩ := by
  unfold anime_get
  rw [hc]

/-- `Episode.get` (models.py 262-267): `StreamNotFound` unless
`0 <= index < len(streams)`, else the stream at that index.  `σ`
abstracts the stream objects; the index is a Python int. -/
def episode_get {σ : Type} (streams : List σ) (index : Int) : Except Unit σ :=
  if h : 0 ≤ index ∧ index < (streams.length : Int) then
    Except.ok (streams.get ⟨index.toNat, by omega⟩)
  else Except.error ()

/-- C6: for a Show with `episode_count` episodes (at least one),
`Anime.get` raises `EpisodeNotFound` at index `episode_count` and
succeeds at index `episode_count - 1`; and `Episode.get` raises
`StreamNotFound` exactly when the index falls outside
`[0, number of stream candidates)`. -/
theorem get_boundary {Ep σ : Type} (a : AnimeState Ep) (streams : List σ)
    (index : Int) (hok : cache_ok a = true) (hpos : 0 < a.episodeCount) :
    anime_get a a.episodeCount =
      Except.error ⟨a.episodeCount, a.episodeCount⟩ ∧
    (∃ ep, anime_get a (a.episodeCount - 1) = Except.ok ep) ∧
    (episode_get streams index = Except.error () ↔
      ¬(0 ≤ index ∧ index < (streams.length : Int))) := by
  refine ⟨?_, ?_, ?_⟩
  · cases hc : a.episodesCache with
    | some d =>
      obtain ⟨hnodup, hbound⟩ := cache_invariants_some hc hok
      have hmiss : List.lookup a.episodeCount d = none :=
        lookup_none_of_bound hbound le_rfl
      have heps : List.lookup a.episodeCount (anime_episodes a) = none := by
        rw [anime_episodes_of_cache hc]
        by_cases hlen : d.length ≠ a.episodeCount
        · rw [if_pos hlen, lookup_fill_episodes]
          simp only [hmiss]
          rw [if_neg (by omega)]
        · rw [if_neg hlen]
          exact hmiss
      rw [anime_get_of_cache hc, hmiss, heps]
    | none =>
      have hlen := cache_invariants_none hc hok
      have heps : List.lookup a.episodeCount (anime_episodes a) = none := by
        rw [anime_episodes_of_nocache hc, lookup_enum]
        exact List.get?_len_le (by omega)
      rw [anime_get_of_nocache hc, heps]
  · cases hc : a.episodesCache with
    | some d =>
      obtain ⟨hnodup, hbound⟩ := cache_invariants_some hc hok
      cases hcache : List.lookup (a.episodeCount - 1) d with
      | some ep => exact ⟨ep, by rw [anime_get_of_cache hc, hcache]⟩
      | none =>
        have heps : List.lookup (a.episodeCount - 1) (anime_episodes a) =
            some (a.mkEpisode (a.episodeCount - 1)) := by
          rw [anime_episodes_of_cache hc]
          by_cases hlen : d.length ≠ a.episodeCount
          · rw [if_pos hlen, lookup_fill_episodes]
            simp only [hcache]
            rw [if_pos (show a.episodeCount - 1 < a.episodeCount from by omega)]
          · exfalso
            rw [Ne, not_not] at hlen
            obtain ⟨v, hv⟩ :=
              keys_complete d a.episodeCount hnodup hbound hlen
                (a.episodeCount - 1) (by omega)
            rw [hcache] at hv
            cases hv
        exact ⟨a.mkEpisode (a.episodeCount - 1),
          by rw [anime_get_of_cache hc, hcache, heps]⟩
    | none =>
      have hlen := cache_invariants_none hc hok
      have hlt : a.episodeCount - 1 < a.allEpisodes.length := by omega
      have heps : List.lookup (a.episodeCount - 1) (anime_episodes a) =
          some (a.allEpisodes.get ⟨a.episodeCount - 1, hlt⟩) := by
        rw [anime_episodes_of_nocache hc, lookup_enum]
        exact List.get?_eq_get hlt
      exact ⟨_, by rw [anime_get_of_nocache hc, heps]⟩
  · unfold episode_get
    by_cases h : 0 ≤ index ∧ index < (streams.length : Int)
    · rw [dif_pos h]
      simp [h]
    · rw [dif_neg h]
      simp [h]

theorem get_boundary_witness :
    anime_get ⟨some [(0, 100)], 2, [], fun i => i⟩ 2 = Except.error ⟨2, 2⟩ ∧
    (∃ ep, anime_get ⟨some [(0, 100)], 2, [], fun i => i⟩ (2 - 1) = Except.ok ep) ∧
    (episode_get ["a"] 5 = Except.error () ↔
      ¬((0 : Int) ≤ 5 ∧ (5 : Int) < ((["a"] : List String).length : Int))) :=
  get_boundary ⟨some [(0, 100)], 2, [], fun i => i⟩ ["a"] 5 (by decide) (by decide)

/-! ## Stream persistence filtering (models.py 106-112, 274-279) -/

/-- The persistence-relevant state of a `Stream` at serialisation time:
the memoised `_links` and `_poster` slots (absent when the attribute
never resolved, which is what `getattr(stream, attr, True)` probes) and
the `persist` property (models.py 106-112, `False` unless a subclass
opts in). -/
structure StreamPersistState where
  _links : Option (List String)
  _poster : Option (Option String)
  persist : Bool
deriving Repr, DecidableEq

/-- Python truthiness of `getattr(stream, "_links", True)`
(models.py 277): an unresolved slot defaults to `True`; a resolved list
is truthy iff non-empty. -/
def links_attr_truthy (s : StreamPersistState) : Bool :=
  match s._links with
  | none => true
  | some links => decide (links ≠ [])

/-- Python truthiness of `getattr(stream, "_poster", True)`
(models.py 277): an unresolved slot defaults to `True`; a resolved
`None` is falsy; a resolved string is truthy iff non-empty. -/
def poster_attr_truthy (s : StreamPersistState) : Bool :=
  match s._poster with
  | none => true
  | some none => false
  | some (some p) => decide (p ≠ "")

/-- `Episode.serialise_special` for the `"streams"` key (models.py
274-277): keep a stream iff `stream.persist or getattr(stream, "_links",
True) or getattr(stream, "_poster", True)`; the kept streams' states are
persisted in order. -/
def serialise_streams (streams : List StreamPersistState) : List StreamPersistState :=
  streams.filter (fun s => s.persist || links_attr_truthy s || poster_attr_truthy s)

/-- C7: serialising an Episode's `streams` attribute excludes every
stream whose resolved links list is empty, whose resolved poster is
absent and whose `persist` property is false, and retains every stream
that has a (non-empty) poster, has links, or has `persist == true`. -/
theorem serialise_streams_spec (streams : List StreamPersistState)
    (s : StreamPersistState) (hmem : s ∈ streams) :
    (s._links = some [] → s._poster = some none → s.persist = false →
      s ∉ serialise_streams streams) ∧
    (s.persist = true ∨ (∃ links, s._links = some links ∧ links ≠ []) ∨
        (∃ p, s._poster = some (some p) ∧ p ≠ "") →
      s ∈ serialise_streams streams) := by
  constructor
  · intro hlinks hposter hpersist hin
    have h := List.of_mem_filter hin
    rw [hpersist, links_attr_truthy, poster_attr_truthy, hlinks, hposter] at h
    simp at h
  · intro hkeep
    apply List.mem_filter.2
    refine ⟨hmem, ?_⟩
    rcases hkeep with hp | ⟨links, hl, hne⟩ | ⟨p, hpo, hne⟩
    · rw [hp]
      rfl
    · rw [links_attr_truthy, hl]
      simp [hne]
    · rw [poster_attr_truthy, hpo]
      simp [hne]

theorem serialise_streams_spec_witness :
    (⟨some [], some none, false⟩ : StreamPersistState) ∉
      serialise_streams [⟨some [], some none, false⟩, ⟨some ["u"], none, false⟩] :=
  (serialise_streams_spec [⟨some [], some none, false⟩, ⟨some ["u"], none, false⟩]
    ⟨some [], some none, false⟩ (by decide)).1 rfl rfl rfl

/-! ## Provider dispatch for `Episode.streams` (models.py 90-104, 222-231) -/

/-- The host of a URL as `(await req.yarl).host` yields it.  Modelled
from the spec: the request collaborator (src/grobber/request.py) is not
included under src/; the spec's provider contract dispatches on the
reference's target host, here the authority part between the scheme and
the first slash. -/
def url_host (url : String) : String :=
  let rest :=
    if url.data.take 7 = "http://".data then url.data.drop 7
    else if url.data.take 8 = "https://".data then url.data.drop 8
    else url.data
  String.mk (rest.takeWhile (fun c => c != '/'))

/-- `str.lstrip("www.")` as used in models.py 104: strips any leading
characters belonging to the set of the argument, i.e. any run of
letters w and dots. -/
def lstrip_www (s : String) : String :=
  String.mk (s.data.dropWhile (fun c => c == 'w' || c == '.'))

/-- A registered Stream subclass as the dispatch sees it: its class
attributes `HOST` and `PRIORITY` (models.py 83-85; Vidstreaming
overrides `HOST` with "vidstreaming.io" and keeps `PRIORITY = 100`). -/
structure ProviderClass where
  HOST : String
  PRIORITY : Int
deriving Repr, DecidableEq

/-- `Stream.can_handle` default implementation (models.py 90-104):
compare the request's host, with `www.` stripped, to the class
`HOST`. -/
def can_handle (cls : ProviderClass) (url : String) : Bool :=
  lstrip_www (url_host url) == cls.HOST

/-- A stream candidate produced by dispatch: the provider class it was
built from and the raw embed reference. -/
structure Candidate where
  provider : ProviderClass
  url : String
deriving Repr, DecidableEq

/-- Modelled from the spec: `get_stream` of src/grobber/streams
(`__init__.py`, not included under src/): dispatch a reference to the
first registered provider whose `can_handle` accepts it; if no provider
claims it the candidate is dropped (the per-link generator yields
nothing and `filter(None, ...)` removes it). -/
def get_stream (providers : List ProviderClass) (url : String) : Option Candidate :=
  (providers.find? (fun cls => can_handle cls url)).map (fun cls => ⟨cls, url⟩)

/-- Ordering of candidates by descending class priority, as used by
`streams.sort(key=attrgetter("PRIORITY"), reverse=True)`
(models.py 230). -/
def cand_priority_ge (a b : Candidate) : Prop :=
  b.provider.PRIORITY ≤ a.provider.PRIORITY

instance : DecidableRel cand_priority_ge := fun a b =>
  inferInstanceAs (Decidable (b.provider.PRIORITY ≤ a.provider.PRIORITY))

instance : IsTotal Candidate cand_priority_ge :=
  ⟨fun a b => le_total b.provider.PRIORITY a.provider.PRIORITY⟩

instance : IsTrans Candidate cand_priority_ge :=
  ⟨fun _ _ _ h1 h2 => le_trans h2 h1⟩

/-- `Episode.streams` (models.py 222-231): map every raw embed through
provider dispatch, drop the unclaimed ones, sort the survivors by
descending priority. -/
def episode_streams (providers : List ProviderClass) (raw : List String) :
    List Candidate :=
  List.insertionSort cand_priority_ge (raw.filterMap (get_stream providers))

/-- The Vidstreaming provider class (src/grobber/streams/vidstreaming.py:
`HOST = "vidstreaming.io"`, inherited `PRIORITY = 100`). -/
def vidstreaming_cls : ProviderClass := ⟨"vidstreaming.io", 100⟩

/-- C9: every candidate `Episode.streams` produces comes from a raw
embed reference whose host the candidate's (registered) provider
accepts; dispatch is first-match-wins — the chosen provider accepts the
reference and every provider registered before it rejects it; a
reference some registered provider accepts contributes a candidate; a
reference no provider claims contributes no candidate; the candidate
list is sorted by descending `PRIORITY`; and for the raw embeds
http://vidstreaming.io/e1 and http://unknown-host/x with only the
Vidstreaming provider registered, the resulting candidate list has
length 1. -/
theorem episode_streams_dispatch (providers : List ProviderClass)
    (raw : List String) :
    (∀ c ∈ episode_streams providers raw,
      c.url ∈ raw ∧ c.provider ∈ providers ∧ can_handle c.provider c.url = true) ∧
    (∀ (url : String) (c : Candidate), get_stream providers url = some c →
      c.url = url ∧ ∃ pre post, providers = pre ++ c.provider :: post ∧
        can_handle c.provider url = true ∧
        ∀ cls ∈ pre, can_handle cls url = false) ∧
    (∀ url ∈ raw, (∃ cls ∈ providers, can_handle cls url = true) →
      ∃ c ∈ episode_streams providers raw, c.url = url) ∧
    (∀ url ∈ raw, (∀ cls ∈ providers, can_handle cls url = false) →
      ∀ c ∈ episode_streams providers raw, c.url ≠ url) ∧
    List.Sorted cand_priority_ge (episode_streams providers raw) ∧
    (episode_streams [vidstreaming_cls]
        ["http://vidstreaming.io/e1", "http://unknown-host/x"]).length = 1 := by
  have hmem : ∀ c ∈ episode_streams providers raw,
      c.url ∈ raw ∧ c.provider ∈ providers ∧ can_handle c.provider c.url = true := by
    intro c hc
    have hc2 : c ∈ raw.filterMap (get_stream providers) :=
      (List.perm_insertionSort cand_priority_ge _).mem_iff.1 hc
    rcases List.mem_filterMap.1 hc2 with ⟨url, hurl, hget⟩
    unfold get_stream at hget
    cases hfind : (providers.find? (fun cls => can_handle cls url)) with
    | none => rw [hfind] at hget; cases hget
    | some cls =>
      rw [hfind] at hget
      simp only [Option.map_some'] at hget
      cases hget
      have hfound := List.find?_some hfind
      exact ⟨hurl, List.mem_of_find?_eq_some hfind, by simpa using hfound⟩
  refine ⟨hmem, ?_, ?_, ?_, ?_, ?_⟩
  · intro url c hget
    unfold get_stream at hget
    cases hfind : (providers.find? (fun cls => can_handle cls url)) with
    | none => rw [hfind] at hget; cases hget
    | some cls =>
      rw [hfind] at hget
      simp only [Option.map_some'] at hget
      cases hget
      obtain ⟨hp, pre, post, heq, hall⟩ := List.find?_eq_some.1 hfind
      refine ⟨rfl, pre, post, heq, by simpa using hp, ?_⟩
      intro cls2 hcls2
      have := hall cls2 hcls2
      simpa using this
  · intro url hurl hclaimed
    obtain ⟨cls, hclsmem, hh⟩ := hclaimed
    have hsome : (providers.find? (fun cls => can_handle cls url)).isSome :=
      List.find?_isSome.2 ⟨cls, hclsmem, hh⟩
    obtain ⟨cls2, hfind⟩ := Option.isSome_iff_exists.1 hsome
    have hget : get_stream providers url = some ⟨cls2, url⟩ := by
      unfold get_stream
      rw [hfind]
      rfl
    have hcmem : (⟨cls2, url⟩ : Candidate) ∈ raw.filterMap (get_stream providers) :=
      List.mem_filterMap.2 ⟨url, hurl, hget⟩
    exact ⟨⟨cls2, url⟩,
      (List.perm_insertionSort cand_priority_ge _).mem_iff.2 hcmem, rfl⟩
  · intro url hurl hnone c hc hceq
    obtain ⟨_, hprov, hhandle⟩ := hmem c hc
    rw [hceq] at hhandle
    rw [hnone c.provider hprov] at hhandle
    cases hhandle
  · exact List.sorted_insertionSort cand_priority_ge _
  · decide

theorem episode_streams_dispatch_witness :
    (⟨vidstreaming_cls, "http://vidstreaming.io/e1"⟩ : Candidate).url =
        "http://vidstreaming.io/e1" ∧
    ∃ pre post, [vidstreaming_cls, ⟨"vidstreaming.io", 50⟩] =
        pre ++
          (⟨vidstreaming_cls, "http://vidstreaming.io/e1"⟩ : Candidate).provider ::
            post ∧
      can_handle (⟨vidstreaming_cls, "http://vidstreaming.io/e1"⟩ : Candidate).provider
        "http://vidstreaming.io/e1" = true ∧
      ∀ cls ∈ pre, can_handle cls "http://vidstreaming.io/e1" = false :=
  (episode_streams_dispatch [vidstreaming_cls, ⟨"vidstreaming.io", 50⟩] []).2.1
    "http://vidstreaming.io/e1" ⟨vidstreaming_cls, "http://vidstreaming.io/e1"⟩
    (by decide)

/-! ## `search_anime` (src/grobber/query.py 29-162) -/

/-- A search result as the query layer handles it: an abstract anime
identity plus the certainty score (`get_certainty`'s rounded
`SequenceMatcher` ratio, models.py 56-57, embedded as a rational). -/
structure SearchResultM where
  animeId : Nat
  certainty : ℚ
deriving Repr, DecidableEq

/-- The order used by `sorted(results_pool,
key=attrgetter("certainty"), reverse=True)` (query.py 159): descending
certainty. -/
def certainty_ge (a b : SearchResultM) : Prop := b.certainty ≤ a.certainty

instance : DecidableRel certainty_ge := fun a b =>
  inferInstanceAs (Decidable (b.certainty ≤ a.certainty))

instance : IsTotal SearchResultM certainty_ge :=
  ⟨fun a b => le_total b.certainty a.certainty⟩

instance : IsTrans SearchResultM certainty_ge :=
  ⟨fun _ _ _ h1 h2 => le_trans h2 h1⟩

/-- The error raised by the query layer
(src/grobber/exceptions.py, InvalidRequest). -/
inductive QueryError where
  | invalidRequest (msg : String)
deriving Repr, DecidableEq

/-- `_get_int_param` (query.py 120-131) when a default is supplied: the
request argument arrives already parsed — `request.args.get(name,
type=int)` yields the integer or `None` when the parameter is absent or
unparseable — and `None` is replaced by the default. -/
def get_int_param (value : Option Int) (default : Int) : Int :=
  value.getD default

/-- `search_anime` (query.py 134-162).  The request is modelled by the
`uid` and `anime` arguments and the parsed `results` argument; `found`
is the sequence of results the source-search iterator
(`sources.search_anime`; the sources package is not included under src/)
would yield in order.  `AnimeQuery.build` prefers a UID query, whose
`search_params` always raises; then the anime query string is checked,
then the result count; the pool takes the first
`max(num_results, 3)` results, is sorted by descending certainty and
truncated (twice) to `num_results`.  The `preload_attrs` gather only
warms caches and does not change the returned list. -/
def search_anime (uid anime : Option String) (resultsParam : Option Int)
    (found : List SearchResultM) : Except QueryError (List SearchResultM) :=
  match uid with
  | some _ => Except.error (QueryError.invalidRequest "cannot search using a UID")
  | none =>
    match anime with
    | none => Except.error (QueryError.invalidRequest "please specify the anime")
    | some q =>
      if q = "" then Except.error (QueryError.invalidRequest "no query specified")
      else
        let num_results := get_int_param resultsParam 1
        if ¬(0 < num_results ∧ num_results ≤ 20) then
          Except.error (QueryError.invalidRequest "can only request up to 20 results")
        else
          let consider_results := max num_results 3
          let results_pool := found.take consider_results.toNat
          let results :=
            (List.insertionSort certainty_ge results_pool).take num_results.toNat
          Except.ok (results.take num_results.toNat)

theorem search_anime_of_query (q : String) (resultsParam : Option Int)
    (found : List SearchResultM) :
    search_anime none (some q) resultsParam found =
      (if q = "" then Except.error (QueryError.invalidRequest "no query specified")
      else
        let num_results := get_int_param resultsParam 1
        if ¬(0 < num_results ∧ num_results ≤ 20) then
          Except.error (QueryError.invalidRequest "can only request up to 20 results")
        else
          let consider_results := max num_results 3
          let results_pool := found.take consider_results.toNat
          let results :=
            (List.insertionSort certainty_ge results_pool).take num_results.toNat
          Except.ok (results.take num_results.toNat)) := rfl

/-- C10: with a valid (non-empty, non-UID) query, `search_anime` raises
`InvalidRequest` whenever the requested number of results lies outside
1..20 inclusive; the count defaults to 1 when the parameter is absent
(and then the call succeeds); and a successful call returns at most the
requested number of results, ordered by descending certainty. -/
theorem search_anime_results_range (q : String) (resultsParam : Option Int)
    (found : List SearchResultM) (hq : q ≠ "") :
    (∀ n : Int, resultsParam = some n → ¬(1 ≤ n ∧ n ≤ 20) →
      search_anime none (some q) resultsParam found =
        Except.error (QueryError.invalidRequest "can only request up to 20 results")) ∧
    (resultsParam = none →
      ∃ res, search_anime none (some q) none found = Except.ok res ∧
        res.length ≤ 1) ∧
    (∀ res, search_anime none (some q) resultsParam found = Except.ok res →
      res.length ≤ (get_int_param resultsParam 1).toNat ∧
      List.Sorted certainty_ge res) := by
  refine ⟨?_, ?_, ?_⟩
  · intro n hn hout
    subst hn
    rw [search_anime_of_query, if_neg hq]
    rw [if_pos ?_]
    show ¬(0 < get_int_param (some n) 1 ∧ get_int_param (some n) 1 ≤ 20)
    unfold get_int_param
    simp only [Option.getD_some]
    omega
  · intro hnone
    subst hnone
    rw [search_anime_of_query, if_neg hq]
    rw [if_neg (show ¬¬(0 < get_int_param none 1 ∧ get_int_param none 1 ≤ 20) from
      by unfold get_int_param; simp)]
    refine ⟨_, rfl, ?_⟩
    exact le_trans (List.length_take_le _ _) (by norm_num [get_int_param])
  · intro res hres
    rw [search_anime_of_query, if_neg hq] at hres
    by_cases hcond : ¬(0 < get_int_param resultsParam 1 ∧ get_int_param resultsParam 1 ≤ 20)
    · rw [if_pos hcond] at hres
      cases hres
    · rw [if_neg hcond] at hres
      cases hres
      constructor
      · exact List.length_take_le _ _
      · have hsorted : List.Sorted certainty_ge
            (List.insertionSort certainty_ge
              (found.take (max (get_int_param resultsParam 1) 3).toNat)) :=
          List.sorted_insertionSort certainty_ge _
        exact List.Pairwise.sublist
          (List.Sublist.trans (List.take_sublist _ _) (List.take_sublist _ _)) hsorted

theorem search_anime_results_range_witness :
    search_anime none (some "naruto") (some 25) [] =
      Except.error (QueryError.invalidRequest "can only request up to 20 results") :=
  (search_anime_results_range "naruto" (some 25) [] (by decide)).1 25 rfl (by decide)

end Grobber
